import Mathlib

/-!
Verification of the firmware-image codec of `debug_reconstruction.py`
(ESP32-S3-Flasher).  The checksum core of `reconstruct_firmware`
(the block from `checksum = 0xEF` through the segment loop, source lines
61-88) is embedded below over byte buffers modelled as `List Nat`:
Python byte-string slicing `b[i:j]` clamps to the buffer (a short or
empty slice is returned silently), `int.from_bytes(bs, 'little')` of a
possibly short slice decodes little-endian, and single-byte indexing
`b[i]` raises `IndexError` when `i` is out of range.  The
print-diagnostic harness around the core (file reading, print calls)
is out of scope, as is the hard-coded pair of file paths.
-/

namespace ESP32

/-- Byte-wise error outcomes of the embedded code.  `badMagic` is the
code's explicit "ERROR: Not a valid ESP32 image" early return;
`indexError` is an uncaught Python `IndexError` from single-byte
indexing past the end of the buffer; `tooShort` is the trailer-size
failure of the spec's digest calculator (used only by the
spec-modelled resealer). -/
inductive FormatError where
  | badMagic
  | truncated
  | tooShort
  | indexError

/-- Python slice `buf[start : start+len]`: clamps silently at the end of
the buffer, possibly returning fewer than `len` bytes. -/
def sliceBytes (buf : List Nat) (start len : Nat) : List Nat :=
  (buf.drop start).take len

/-- Python `int.from_bytes(bs, 'little')`. -/
def fromBytesLE (bs : List Nat) : Nat :=
  bs.foldr (fun b acc => b + 256 * acc) 0

/-- A decoded segment record: the two 8-byte-header fields and the
payload bytes that follow them. -/
structure SegRecord where
  load_addr : Nat
  data_len : Nat
  data : List Nat

/-- Read `n` single bytes `buf[off], buf[off+1], ...` by Python
single-byte indexing: `none` models the `IndexError` raised by the
first out-of-range index. -/
def readDataBytes (buf : List Nat) : Nat → Nat → Option (List Nat)
  | _, 0 => some []
  | off, n + 1 =>
    match buf[off]? with
    | none => none
    | some b => (readDataBytes buf (off + 1) n).map (fun rest => b :: rest)

/-- The inner loop `for j in range(seg_data_len): checksum ^= modified[offset + j]`
(source lines 84-85): XOR `n` single-indexed bytes into the running
checksum; `none` models the `IndexError` of an out-of-range index. -/
def xorRange (buf : List Nat) : Nat → Nat → Nat → Option Nat
  | _, 0, c => some c
  | off, n + 1, c =>
    match buf[off]? with
    | none => none
    | some b => xorRange buf (off + 1) n (c ^^^ b)

/-- The segment loop of `reconstruct_firmware` (source lines 75-88):
for each of `n` segments read the 4-byte little-endian `load_addr` and
`data_len` by clamped slicing, XOR the `data_len` payload bytes into
the checksum by single-byte indexing, and advance the cursor by
`8 + data_len`. -/
def segmentLoop (buf : List Nat) : Nat → Nat → Nat → Option Nat
  | _, c, 0 => some c
  | off, c, n + 1 =>
    let _load_addr := fromBytesLE (sliceBytes buf off 4)
    let dl := fromBytesLE (sliceBytes buf (off + 4) 4)
    match xorRange buf (off + 8) dl c with
    | none => none
    | some c2 => segmentLoop buf (off + 8 + dl) c2 n

/-- The same walk as `segmentLoop`, returning the decoded segment
records instead of the interleaved checksum: the two header fields by
clamped slicing and the payload by single-byte indexing, cursor
advanced by `8 + data_len` per segment. -/
def readSegments (buf : List Nat) : Nat → Nat → Option (List SegRecord)
  | _, 0 => some []
  | off, n + 1 =>
    let la := fromBytesLE (sliceBytes buf off 4)
    let dl := fromBytesLE (sliceBytes buf (off + 4) 4)
    match readDataBytes buf (off + 8) dl with
    | none => none
    | some d =>
      (readSegments buf (off + 8 + dl) n).map
        (fun rest => { load_addr := la, data_len := dl, data := d } :: rest)

/-- The checksum core of `reconstruct_firmware` (source lines 61-88):
seed `0xEF`, abort with the bad-magic error when `modified[0] != 0xE9`,
read `segment_count = modified[1]`, then run the segment loop starting
at offset 24.  An out-of-range single-byte index is the `indexError`
outcome; otherwise the computed checksum byte is returned. -/
def reconstruct_firmware (modified : List Nat) : Except FormatError Nat :=
  match modified[0]? with
  | none => .error .indexError
  | some magic =>
    if magic ≠ 0xE9 then .error .badMagic
    else
      match modified[1]? with
      | none => .error .indexError
      | some segment_count =>
        match segmentLoop modified 24 0xEF segment_count with
        | none => .error .indexError
        | some c => .ok c

/-- The checksum accumulation rule on decoded segment records, as the
spec words it: seed `0xEF`, then `checksum ^= byte` for every data byte
of every segment, headers excluded (the spec's
`compute_checksum(segments) -> u8` interface). -/
def compute_checksum (segs : List SegRecord) : Nat :=
  segs.foldl (fun c s => s.data.foldl (fun a b => a ^^^ b) c) 0xEF

/-- `imageData` end position, source line 22: the buffer minus the
32-byte SHA256 trailer; this is the spec's `trailer_start`. -/
def imageData_end (L : Nat) : Nat := L - 32

/-- Checksum byte position, source lines 23 and 48: the last byte of
`imageData`, i.e. byte `-33` from the end of the file. -/
def checksum_slot (L : Nat) : Nat := imageData_end L - 1

/-- Cursor position of the segment walk before segment `i` (0-based):
the start offset plus `8 + data_len` for every earlier segment. -/
def segCursor (start : Nat) (segs : List SegRecord) (i : Nat) : Nat :=
  start + ((segs.take i).map (fun s => 8 + s.data_len)).sum

/-- A concrete well-formed image, spec scenario A: 24-byte header with
magic `0xE9` and `segment_count = 1`, one segment with
`load_addr = 0`, `data_len = 2`, data `[0x01, 0x02]`, its checksum byte
`0xEC`, and a 32-byte digest trailer; 67 bytes in all. -/
def firmwareA : List Nat :=
  [0xE9, 0x01, 0, 0, 0, 0, 0, 0,
   0, 0, 0, 0, 0, 0, 0, 0, 0, 0, 0, 0, 0, 0, 0, 0,
   0, 0, 0, 0,
   2, 0, 0, 0,
   1, 2,
   0xEC] ++ List.replicate 32 0

/-- Modelled from the spec: the Image Resealer state machine (section
4.5).  The JavaScript reconstruction routine the debug script simulates
is not part of the analyzed source (only its print-level simulation,
lines 28-48, is), so the resealer is modelled from the spec's words:
validate and recompute the checksum over the segment data
(`reconstruct_firmware`), fail `TooShort` when the buffer cannot hold
the 32-byte trailer and the checksum byte, write the new checksum byte
at `trailer_start - 1`, then run the digest collaborator `hash` over
`[0, trailer_start)` of the updated buffer and write the 32 digest
bytes over the trailer. -/
def reseal (hash : List Nat → List Nat) (buf : List Nat) :
    Except FormatError (List Nat) :=
  match reconstruct_firmware buf with
  | .error e => .error e
  | .ok chk =>
    if buf.length < 33 then .error .tooShort
    else
      let trailer_start := buf.length - 32
      let updated := buf.set (trailer_start - 1) chk
      let digest := hash (updated.take trailer_start)
      .ok (updated.take trailer_start ++ digest)

/-! ### Helper lemmas -/

/-- Unfolding of the checksum core once magic and segment count are known. -/
theorem reconstruct_firmware_unfold (buf : List Nat) (cnt : Nat)
    (h0 : buf[0]? = some 0xE9) (h1 : buf[1]? = some cnt) :
    reconstruct_firmware buf =
      match segmentLoop buf 24 0xEF cnt with
      | none => .error .indexError
      | some c => .ok c := by
  unfold reconstruct_firmware
  rw [h0, h1]
  simp

/-- The interleaved XOR loop agrees with reading the bytes first and
folding afterwards. -/
theorem xorRange_eq_readDataBytes (buf : List Nat) :
    ∀ (n off c : Nat),
      xorRange buf off n c
        = (readDataBytes buf off n).map (fun d => d.foldl (fun a b => a ^^^ b) c) := by
  intro n
  induction n with
  | zero => intro off c; rfl
  | succ n ih =>
    intro off c
    simp only [xorRange, readDataBytes]
    cases h : buf[off]? with
    | none => rfl
    | some b =>
      show xorRange buf (off + 1) n (c ^^^ b)
          = ((readDataBytes buf (off + 1) n).map (fun rest => b :: rest)).map
              (fun d => d.foldl (fun a b => a ^^^ b) c)
      rw [ih (off + 1) (c ^^^ b), Option.map_map]
      rfl

/-- The checksum segment loop agrees with decoding the segment records
first and folding the checksum afterwards. -/
theorem segmentLoop_eq_readSegments (buf : List Nat) :
    ∀ (n off c : Nat),
      segmentLoop buf off c n
        = (readSegments buf off n).map
            (fun segs => segs.foldl (fun a s => s.data.foldl (fun x b => x ^^^ b) a) c) := by
  intro n
  induction n with
  | zero => intro off c; rfl
  | succ n ih =>
    intro off c
    simp only [segmentLoop, readSegments, xorRange_eq_readDataBytes]
    cases h : readDataBytes buf (off + 8) (fromBytesLE (sliceBytes buf (off + 4) 4)) with
    | none => rfl
    | some d =>
      show segmentLoop buf (off + 8 + fromBytesLE (sliceBytes buf (off + 4) 4))
              (d.foldl (fun a b => a ^^^ b) c) n
          = ((readSegments buf (off + 8 + fromBytesLE (sliceBytes buf (off + 4) 4)) n).map
              (fun rest =>
                { load_addr := fromBytesLE (sliceBytes buf off 4),
                  data_len := fromBytesLE (sliceBytes buf (off + 4) 4),
                  data := d } :: rest)).map
              (fun segs => segs.foldl (fun a s => s.data.foldl (fun x b => x ^^^ b) a) c)
      rw [ih, Option.map_map]
      rfl

/-- A successful byte-by-byte read returns exactly the clamped slice,
of full length. -/
theorem readDataBytes_some (buf : List Nat) :
    ∀ (n off : Nat) (d : List Nat),
      readDataBytes buf off n = some d →
      d = sliceBytes buf off n ∧ d.length = n := by
  intro n
  induction n with
  | zero =>
    intro off d h
    simp only [readDataBytes, Option.some.injEq] at h
    subst h
    exact ⟨rfl, rfl⟩
  | succ n ih =>
    intro off d h
    simp only [readDataBytes] at h
    cases hb : buf[off]? with
    | none => rw [hb] at h; exact absurd h (by simp)
    | some b =>
      rw [hb] at h
      cases hr : readDataBytes buf (off + 1) n with
      | none => rw [hr] at h; exact absurd h (by simp)
      | some d2 =>
        rw [hr] at h
        replace h : some (b :: d2) = some d := h
        injection h with h
        subst h
        obtain ⟨hd, hl⟩ := ih (off + 1) d2 hr
        obtain ⟨hlt, hget⟩ := List.getElem?_eq_some.mp hb
        constructor
        · rw [hd]
          simp only [sliceBytes, List.drop_eq_getElem_cons hlt, List.take_succ_cons, hget]
        · simp [hl]

/-- Single-byte indexing beyond a prefix of known length reaches into
the suffix. -/
theorem getElem?_append_shift (l1 l2 : List Nat) (k : Nat) :
    (l1 ++ l2)[l1.length + k]? = l2[k]? := by
  rw [List.getElem?_append_right (Nat.le_add_right _ _)]
  congr 1
  omega

/-- Clamped slicing beyond a prefix of known length reaches into the
suffix. -/
theorem sliceBytes_append_shift (l1 l2 : List Nat) (k n : Nat) :
    sliceBytes (l1 ++ l2) (l1.length + k) n = sliceBytes l2 k n := by
  simp [sliceBytes, List.drop_append]

/-- The XOR loop ignores an unrelated buffer prefix. -/
theorem xorRange_append_shift (l1 l2 : List Nat) :
    ∀ (n k c : Nat), xorRange (l1 ++ l2) (l1.length + k) n c = xorRange l2 k n c := by
  intro n
  induction n with
  | zero => intro k c; rfl
  | succ n ih =>
    intro k c
    simp only [xorRange, getElem?_append_shift]
    cases l2[k]? with
    | none => rfl
    | some b => exact ih (k + 1) (c ^^^ b)

/-- The segment loop ignores an unrelated buffer prefix. -/
theorem segmentLoop_append_shift (l1 l2 : List Nat) :
    ∀ (n k c : Nat),
      segmentLoop (l1 ++ l2) (l1.length + k) c n = segmentLoop l2 k c n := by
  intro n
  induction n with
  | zero => intro k c; rfl
  | succ n ih =>
    intro k c
    have h4 : l1.length + k + 4 = l1.length + (k + 4) := by omega
    have h8 : l1.length + k + 8 = l1.length + (k + 8) := by omega
    simp only [segmentLoop, h4, h8, sliceBytes_append_shift, xorRange_append_shift]
    cases xorRange l2 (k + 8) (fromBytesLE (sliceBytes l2 (k + 4) 4)) c with
    | none => rfl
    | some c2 =>
      have h9 : l1.length + (k + 8) + fromBytesLE (sliceBytes l2 (k + 4) 4)
          = l1.length + (k + 8 + fromBytesLE (sliceBytes l2 (k + 4) 4)) := by omega
      rw [h9]
      exact ih _ _

/-- XOR of all bytes of a list (proof-side normal form for the XOR
folds). -/
def xorSum : List Nat → Nat
  | [] => 0
  | b :: l => b ^^^ xorSum l

/-- Left commutativity of XOR on naturals. -/
theorem xor_left_comm (a b c : Nat) : a ^^^ (b ^^^ c) = b ^^^ (a ^^^ c) := by
  rw [← Nat.xor_assoc, Nat.xor_comm a b, Nat.xor_assoc]

/-- Folding XOR from an accumulator is the accumulator XOR the list's
XOR. -/
theorem foldl_xor_eq_xorSum (l : List Nat) :
    ∀ c : Nat, l.foldl (fun a b => a ^^^ b) c = c ^^^ xorSum l := by
  induction l with
  | nil => intro c; simp [xorSum]
  | cons b l ih =>
    intro c
    simp only [List.foldl_cons, xorSum]
    rw [ih (c ^^^ b), Nat.xor_assoc]

/-- The XOR of a list of bytes is invariant under permutation. -/
theorem xorSum_perm {l1 l2 : List Nat} (h : l1.Perm l2) : xorSum l1 = xorSum l2 := by
  induction h with
  | nil => rfl
  | cons x _ ih => simp only [xorSum]; rw [ih]
  | swap x y l => exact xor_left_comm y x (xorSum l)
  | trans _ _ ih1 ih2 => rw [ih1, ih2]

/-- The per-segment checksum fold from an accumulator is the accumulator
XOR the XOR of the per-segment XORs. -/
theorem segfold_eq_xorSum (l : List SegRecord) :
    ∀ c : Nat,
      l.foldl (fun a s => s.data.foldl (fun x b => x ^^^ b) a) c
        = c ^^^ xorSum (l.map (fun s => xorSum s.data)) := by
  induction l with
  | nil => intro c; simp [xorSum]
  | cons s l ih =>
    intro c
    simp only [List.foldl_cons, List.map_cons, xorSum]
    rw [foldl_xor_eq_xorSum s.data c, ih, Nat.xor_assoc]

/-- The per-segment checksum fold is invariant under permutations of
the segment list. -/
theorem segfold_perm {l1 l2 : List SegRecord} (h : l1.Perm l2) (c : Nat) :
    l1.foldl (fun a s => s.data.foldl (fun x b => x ^^^ b) a) c
      = l2.foldl (fun a s => s.data.foldl (fun x b => x ^^^ b) a) c := by
  rw [segfold_eq_xorSum, segfold_eq_xorSum,
    xorSum_perm (h.map (fun s => xorSum s.data))]

/-- The walk cursor starts at the start offset. -/
theorem segCursor_zero (start : Nat) (segs : List SegRecord) :
    segCursor start segs 0 = start := by
  simp [segCursor]

/-- Advancing the walk cursor past the head segment. -/
theorem segCursor_cons (start : Nat) (r : SegRecord) (rest : List SegRecord) (j : Nat) :
    segCursor start (r :: rest) (j + 1) = segCursor (start + 8 + r.data_len) rest j := by
  simp only [segCursor, List.take_succ_cons, List.map_cons, List.sum_cons]
  omega

/-- Structural invariant of a successful segment walk: the walk
produces one record per declared segment, each record's payload is
exactly the byte slice starting 8 bytes after its cursor position, of
exactly the declared length, and consecutive cursor positions differ by
`8 + data_len`. -/
theorem readSegments_spec (buf : List Nat) :
    ∀ (n start : Nat) (segs : List SegRecord),
      readSegments buf start n = some segs →
      segs.length = n ∧
      ∀ (i : Nat) (hi : i < segs.length),
        (segs.get ⟨i, hi⟩).data
            = sliceBytes buf (segCursor start segs i + 8) (segs.get ⟨i, hi⟩).data_len ∧
        (segs.get ⟨i, hi⟩).data.length = (segs.get ⟨i, hi⟩).data_len ∧
        segCursor start segs (i + 1)
            = segCursor start segs i + (8 + (segs.get ⟨i, hi⟩).data_len) := by
  intro n
  induction n with
  | zero =>
    intro start segs h
    have hz := Option.some.inj h
    subst hz
    exact ⟨rfl, fun i hi => absurd hi (by simp)⟩
  | succ n ih =>
    intro start segs h
    simp only [readSegments] at h
    cases hd : readDataBytes buf (start + 8) (fromBytesLE (sliceBytes buf (start + 4) 4)) with
    | none => rw [hd] at h; exact absurd h (by simp)
    | some d =>
      rw [hd] at h
      cases hr : readSegments buf (start + 8 + fromBytesLE (sliceBytes buf (start + 4) 4)) n with
      | none => rw [hr] at h; exact absurd h (by simp)
      | some rest =>
        rw [hr] at h
        have hs := Option.some.inj h
        subst hs
        obtain ⟨hdl, hln⟩ := readDataBytes_some buf _ _ d hd
        obtain ⟨hrl, hri⟩ := ih _ rest hr
        refine ⟨by simp [hrl], ?_⟩
        intro i hi
        cases i with
        | zero =>
          refine ⟨?_, ?_, ?_⟩
          · rw [segCursor_zero]
            simp only [List.get]
            exact hdl
          · exact hln
          · rw [segCursor_cons, segCursor_zero, segCursor_zero]
            simp only [List.get]
            omega
        | succ j =>
          have hj : j < rest.length := by
            simp only [List.length_cons] at hi
            omega
          obtain ⟨h1, h2, h3⟩ := hri j hj
          refine ⟨?_, ?_, ?_⟩
          · rw [segCursor_cons]
            simp only [List.get]
            exact h1
          · simp only [List.get]
            exact h2
          · rw [segCursor_cons, segCursor_cons]
            simp only [List.get]
            exact h3

/-! ### Claim theorems -/

/-- Claim C1: for every buffer whose first byte is `0xE9` (and that has
a segment-count byte), the computed checksum is exactly the seed `0xEF`
XOR-folded over the payload data bytes of the declared segments — the
records decoded by the sequential walk from offset 24, headers
excluded, cursor advancing by `8 + data_length` per segment. -/
theorem reconstruct_checksum_eq_fold_over_payload (buf : List Nat) (cnt : Nat)
    (h0 : buf[0]? = some 0xE9) (h1 : buf[1]? = some cnt) :
    reconstruct_firmware buf =
      match readSegments buf 24 cnt with
      | none => .error .indexError
      | some segs => .ok (compute_checksum segs) := by
  rw [reconstruct_firmware_unfold buf cnt h0 h1, segmentLoop_eq_readSegments]
  cases readSegments buf 24 cnt with
  | none => rfl
  | some segs => rfl

/-- Witness for C1 at the concrete scenario-A image. -/
theorem reconstruct_checksum_eq_fold_over_payload_witness :
    firmwareA[0]? = some 0xE9 ∧ firmwareA[1]? = some 1 ∧
    reconstruct_firmware firmwareA =
      match readSegments firmwareA 24 1 with
      | none => .error .indexError
      | some segs => .ok (compute_checksum segs) :=
  ⟨rfl, rfl, reconstruct_checksum_eq_fold_over_payload firmwareA 1 rfl rfl⟩

/-- Claim C2 (refutation evidence): truncating the well-formed
scenario-A image to its first 28 bytes — a cut strictly before
`trailer_start = 35` that leaves the segment's `data_length` field
empty — does not fail at all: the code decodes the empty slice as 0 and
silently returns the seed checksum `0xEF`.  The claim requires every
such truncation to fail with a Truncated error. -/
theorem truncation_silently_accepted :
    reconstruct_firmware firmwareA = .ok 0xEC ∧
    firmwareA.length = 67 ∧
    (firmwareA.take 28).length = 28 ∧
    28 < firmwareA.length - 32 ∧
    reconstruct_firmware (firmwareA.take 28) = .ok 0xEF :=
  ⟨rfl, rfl, rfl, by decide, rfl⟩

/-- Claim C3: for every buffer length `L ≥ 33` the checksum byte slot
computed by the code is the single byte at `L - 33`, i.e. at
`trailer_start - 1` for `trailer_start = L - 32`, immediately preceding
the 32-byte digest trailer. -/
theorem checksum_slot_is_length_sub_33 (L : Nat) (h : 33 ≤ L) :
    checksum_slot L = L - 33 ∧
    checksum_slot L + 1 = imageData_end L ∧
    imageData_end L + 32 = L := by
  unfold checksum_slot imageData_end
  omega

/-- Witness for C3 at the scenario-A length 67. -/
theorem checksum_slot_is_length_sub_33_witness :
    33 ≤ 67 ∧ checksum_slot 67 = 67 - 33 :=
  ⟨by decide, (checksum_slot_is_length_sub_33 67 (by decide)).1⟩

/-- Claim C4: for every buffer whose first byte differs from `0xE9`,
the operation aborts immediately with the bad-magic error and produces
no checksum. -/
theorem bad_magic_aborts (buf : List Nat) (b : Nat)
    (h0 : buf[0]? = some b) (hb : b ≠ 0xE9) :
    reconstruct_firmware buf = .error .badMagic := by
  unfold reconstruct_firmware
  rw [h0]
  simp [hb]

/-- Witness for C4 at a one-byte buffer with wrong magic. -/
theorem bad_magic_aborts_witness :
    ([0x00] : List Nat)[0]? = some 0x00 ∧ (0x00 : Nat) ≠ 0xE9 ∧
    reconstruct_firmware [0x00] = .error .badMagic :=
  ⟨rfl, by decide, bad_magic_aborts [0x00] 0x00 rfl (by decide)⟩

/-- Claim C5: on a well-formed image the resealer first writes the
newly computed checksum byte at `trailer_start - 1` and only then
digests `[0, trailer_start)` of the updated buffer — so the digest
input contains the new checksum byte at position `trailer_start - 1` —
and writes the digest over the last 32 bytes. -/
theorem reseal_digest_covers_new_checksum (hash : List Nat → List Nat)
    (buf : List Nat) (chk : Nat)
    (hlen : 33 ≤ buf.length)
    (hchk : reconstruct_firmware buf = .ok chk) :
    reseal hash buf
        = .ok ((buf.set (buf.length - 33) chk).take (buf.length - 32)
            ++ hash ((buf.set (buf.length - 33) chk).take (buf.length - 32))) ∧
    ((buf.set (buf.length - 33) chk).take (buf.length - 32))[buf.length - 33]?
        = some chk := by
  constructor
  · unfold reseal
    rw [hchk]
    have hnot : ¬ buf.length < 33 := by omega
    have h33 : buf.length - 32 - 1 = buf.length - 33 := by omega
    simp only [hnot, if_false, h33]
  · rw [List.getElem?_take]
    have hlt : buf.length - 33 < buf.length - 32 := by omega
    rw [if_pos hlt]
    apply List.getElem?_set_self
    omega

/-- Witness for C5 at the scenario-A image with a constant digest
collaborator. -/
theorem reseal_digest_covers_new_checksum_witness :
    33 ≤ firmwareA.length ∧
    reconstruct_firmware firmwareA = .ok 0xEC ∧
    ((firmwareA.set (firmwareA.length - 33) 0xEC).take
        (firmwareA.length - 32))[firmwareA.length - 33]? = some 0xEC :=
  ⟨by decide, rfl,
    (reseal_digest_covers_new_checksum (fun _ => List.replicate 32 0)
      firmwareA 0xEC (by decide) rfl).2⟩

/-- Claim C6: any image whose header is `0xE9, 0x01` followed by 22
opaque bytes, one segment with `load_addr = 0`, `data_len = 2`, data
`[0x01, 0x02]`, and an arbitrary tail, has computed checksum
`0xEF ^^^ 0x01 ^^^ 0x02 = 0xEC`. -/
theorem scenarioA_checksum (op : List Nat) (hop : op.length = 22) :
    reconstruct_firmware
        (0xE9 :: 0x01 ::
          (op ++ ([0, 0, 0, 0, 2, 0, 0, 0, 1, 2, 0xEC] ++ List.replicate 32 0)))
      = .ok 0xEC := by
  have h0 : (0xE9 :: 0x01 ::
      (op ++ ([0, 0, 0, 0, 2, 0, 0, 0, 1, 2, 0xEC] ++ List.replicate 32 0)) : List Nat)[0]?
      = some 0xE9 := by
    simp
  have h1 : (0xE9 :: 0x01 ::
      (op ++ ([0, 0, 0, 0, 2, 0, 0, 0, 1, 2, 0xEC] ++ List.replicate 32 0)) : List Nat)[1]?
      = some 1 := by
    simp
  rw [reconstruct_firmware_unfold _ 1 h0 h1]
  have hb : (0xE9 :: 0x01 ::
      (op ++ ([0, 0, 0, 0, 2, 0, 0, 0, 1, 2, 0xEC] ++ List.replicate 32 0)) : List Nat)
      = ([0xE9, 0x01] ++ op) ++ ([0, 0, 0, 0, 2, 0, 0, 0, 1, 2, 0xEC] ++ List.replicate 32 0) := by
    simp
  have h24 : (24 : Nat) = ([0xE9, 0x01] ++ op).length + 0 := by
    simp [hop]
  rw [hb, h24, segmentLoop_append_shift]
  rfl

/-- Witness for C6 with all-zero opaque bytes. -/
theorem scenarioA_checksum_witness :
    (List.replicate 22 0 : List Nat).length = 22 ∧
    reconstruct_firmware
        (0xE9 :: 0x01 ::
          (List.replicate 22 0 ++ ([0, 0, 0, 0, 2, 0, 0, 0, 1, 2, 0xEC] ++ List.replicate 32 0)))
      = .ok 0xEC :=
  ⟨by decide, scenarioA_checksum (List.replicate 22 0) (by decide)⟩

/-- Claim C7: every image with valid magic and `segment_count = 0`
yields the seed constant `0xEF` unchanged as its checksum. -/
theorem zero_segments_checksum_is_seed (buf : List Nat)
    (h0 : buf[0]? = some 0xE9) (h1 : buf[1]? = some 0) :
    reconstruct_firmware buf = .ok 0xEF := by
  rw [reconstruct_firmware_unfold buf 0 h0 h1]
  rfl

/-- Witness for C7 at the two-byte buffer `[0xE9, 0x00]`. -/
theorem zero_segments_checksum_is_seed_witness :
    ([0xE9, 0] : List Nat)[0]? = some 0xE9 ∧
    ([0xE9, 0] : List Nat)[1]? = some 0 ∧
    reconstruct_firmware [0xE9, 0] = .ok 0xEF :=
  ⟨rfl, rfl, zero_segments_checksum_is_seed [0xE9, 0] rfl rfl⟩

/-- Claim C8: XOR-folding the seed over segment payloads is invariant
under any permutation of the segments, and the sequential fold equals
the seed XORed with the XOR-combination of the independent per-segment
partial folds. -/
theorem checksum_order_independent (l1 l2 : List SegRecord) (h : l1.Perm l2) :
    compute_checksum l1 = compute_checksum l2 ∧
    compute_checksum l1
      = 0xEF ^^^ (l1.map (fun s => s.data.foldl (fun a b => a ^^^ b) 0)).foldl
          (fun a b => a ^^^ b) 0 := by
  constructor
  · exact segfold_perm h 0xEF
  · unfold compute_checksum
    rw [segfold_eq_xorSum]
    simp only [foldl_xor_eq_xorSum, Nat.zero_xor]

/-- Witness for C8 at a two-segment swap. -/
theorem checksum_order_independent_witness :
    List.Perm [(⟨0, 2, [1, 2]⟩ : SegRecord), ⟨4, 1, [255]⟩]
        [(⟨4, 1, [255]⟩ : SegRecord), ⟨0, 2, [1, 2]⟩] ∧
    compute_checksum [(⟨0, 2, [1, 2]⟩ : SegRecord), ⟨4, 1, [255]⟩]
      = compute_checksum [(⟨4, 1, [255]⟩ : SegRecord), ⟨0, 2, [1, 2]⟩] :=
  ⟨List.Perm.swap _ _ _,
    (checksum_order_independent _ _ (List.Perm.swap _ _ _)).1⟩

/-- Claim C9: on a successful walk from offset 24, the cursor before
segment `i` is 24 plus the sum of `8 + data_length` over all earlier
segments, and segment `i`'s payload is exactly the `data_length_i`
bytes starting 8 bytes after that cursor — so records are contiguous,
back-to-back and non-overlapping. -/
theorem segment_walk_cursor_invariant (buf : List Nat) (n : Nat)
    (segs : List SegRecord) (h : readSegments buf 24 n = some segs) :
    segs.length = n ∧
    ∀ (i : Nat) (hi : i < segs.length),
      (segs.get ⟨i, hi⟩).data
          = sliceBytes buf (segCursor 24 segs i + 8) (segs.get ⟨i, hi⟩).data_len ∧
      (segs.get ⟨i, hi⟩).data.length = (segs.get ⟨i, hi⟩).data_len ∧
      segCursor 24 segs (i + 1)
          = segCursor 24 segs i + (8 + (segs.get ⟨i, hi⟩).data_len) :=
  readSegments_spec buf n 24 segs h

/-- Witness for C9 at the scenario-A image. -/
theorem segment_walk_cursor_invariant_witness :
    readSegments firmwareA 24 1 = some [(⟨0, 2, [1, 2]⟩ : SegRecord)] ∧
    ([(⟨0, 2, [1, 2]⟩ : SegRecord)]).length = 1 :=
  ⟨rfl, (segment_walk_cursor_invariant firmwareA 1 [⟨0, 2, [1, 2]⟩] rfl).1⟩

/-- Claim C10: the checksum computation and the segment decoding are
deterministic functions of the buffer's byte content alone: two buffers
whose bytes agree at every index produce identical checksums and
identical decoded segment records. -/
theorem decoding_deterministic (b1 b2 : List Nat)
    (h : ∀ i : Nat, b1[i]? = b2[i]?) :
    reconstruct_firmware b1 = reconstruct_firmware b2 ∧
    ∀ (off n : Nat), readSegments b1 off n = readSegments b2 off n := by
  have hb : b1 = b2 := List.ext_getElem? h
  subst hb
  exact ⟨rfl, fun _ _ => rfl⟩

/-- Witness for C10 at the scenario-A image. -/
theorem decoding_deterministic_witness :
    reconstruct_firmware firmwareA = reconstruct_firmware firmwareA :=
  (decoding_deterministic firmwareA firmwareA (fun _ => rfl)).1

end ESP32
